import Mathlib

/-!
Shallow embedding of the USF repository (`src/lib.rs`, `UniversalStorage`).

Modelling conventions, chosen once for the whole file:

* The container file is a byte sequence `List Nat` together with a cursor
  (`FS`), mirroring the `std::fs::File` handle.  `write_all`, `read_exact`,
  `seek(Start p)` and `seek(End 0)` are modelled by `FS.writeAll`,
  `FS.readExact`, `FS.seekTo` and `FS.seekEnd`.  `read_exact` past the end of
  the file fails (`Err.eof`), as in Rust.
* Keys are the UTF-8 byte sequences of the Rust `&str` keys, kept as
  `List Nat`.  The `HashMap` index is an association list; `insert` replaces
  the entry of an existing key in place, like `HashMap::insert`.
* `bincode` (1.x legacy configuration) serialization is modelled concretely:
  fixed-width little-endian integers, `u32` enum variant tags, `u64`
  length-prefixed sequences and strings; `deserialize` ignores trailing
  bytes.  External libraries that are not part of the repository are
  abstracted into an environment `Ext`: `xxh3_64`, `zstd::encode_all`
  (level 21, a valid level, hence total) and the `image` re-encoding.
  `chrono` timestamps are abstracted to a `Nat` tick serialized as a fixed
  8-byte little-endian field; nothing below depends on the concrete
  timestamp encoding beyond its fixed length.
* Rust arithmetic-overflow / out-of-bounds panics are modelled as the value
  `Err.overflowPanic`: `prepare_blocks` runs `for i in 0..blocks.len() - 1`,
  whose bound underflows when `blocks` is empty (debug: subtraction panic;
  release: `blocks[0]` out of bounds), so the empty-block case yields
  `Err.overflowPanic`.
* The `while let` loop of `retrieve` is modelled with an explicit fuel
  argument.  Since `read_block` always returns `next_location = None`, the
  loop body runs at most once and any positive fuel computes the exact
  behaviour of the Rust loop; `retrieve` passes `file.length + 1`.
-/

set_option maxRecDepth 100000

namespace USF

def BLOCK_SIZE : Nat := 1024 * 64

def MIN_COMPRESS_SIZE : Nat := 1024

/-- The bytes of the ASCII string `USF1`. -/
def MAGIC_BYTES : List Nat := [85, 83, 70, 49]

def VERSION : Nat := 1

inductive DataType
  | Text
  | Binary
  | Image
  | Json
  | Structured
  deriving DecidableEq

inductive CompressionMethod
  | None
  | Zstd
  | DeltaEncoding
  deriving DecidableEq

/-- Error outcomes of the modelled operations.  `eof` is a failing
`read_exact`, `deser` a failing `bincode::deserialize`, `overflowPanic` a
Rust panic, `outOfFuel` the (unreachable) fuel exhaustion of the modelled
`retrieve` loop. -/
inductive Err
  | eof
  | deser
  | invalidFormat
  | unsupportedVersion
  | notFound
  | corruption
  | overflowPanic
  | outOfFuel
  deriving DecidableEq

structure BlockLocation where
  offset : Nat
  header_size : Nat
  data_size : Nat
  deriving DecidableEq

structure BlockHeader where
  data_type : DataType
  original_size : Nat
  compressed_size : Nat
  compression_method : CompressionMethod
  checksum : Nat
  timestamp : Nat
  deriving DecidableEq

structure Block where
  header : BlockHeader
  data : List Nat
  next_location : Option BlockLocation
  deriving DecidableEq

structure MetaData where
  created : Nat
  modified : Nat
  total_blocks : Nat
  index : List (List Nat × BlockLocation)
  deriving DecidableEq

structure FS where
  file : List Nat
  pos : Nat
  deriving DecidableEq

structure Storage where
  fs : FS
  metadata : MetaData
  deriving DecidableEq

/-- External (non-repository) library functions, abstracted: `xxh3_64`,
`zstd::encode_all(_, 21)` (a valid compression level, so it is total), and
the `image` branch (`load_from_memory` + WebP `write_to`): `none` means the
image failed to decode, `some (.error ())` means re-encoding failed,
`some (.ok out)` is a successful re-encode. -/
structure Ext where
  xxh3 : List Nat → Nat
  zstd : List Nat → List Nat
  imgReencode : List Nat → Option (Except Unit (List Nat))

/-! ## bincode serialization (legacy fixed-int little-endian configuration) -/

def leBytes : Nat → Nat → List Nat
  | 0, _ => []
  | w + 1, n => n % 256 :: leBytes w (n / 256)

def fromLE : List Nat → Nat
  | [] => 0
  | b :: bs => b + 256 * fromLE bs

def serNat8 (n : Nat) : List Nat := leBytes 8 n

def serNat4 (n : Nat) : List Nat := leBytes 4 n

/-- chrono `DateTime<Utc>` serialization, abstracted to a fixed 8-byte field. -/
def serTime (t : Nat) : List Nat := serNat8 t

/-- bincode enum tag: `u32` variant index. -/
def serDataType : DataType → List Nat
  | .Text => serNat4 0
  | .Binary => serNat4 1
  | .Image => serNat4 2
  | .Json => serNat4 3
  | .Structured => serNat4 4

def serMethod : CompressionMethod → List Nat
  | .None => serNat4 0
  | .Zstd => serNat4 1
  | .DeltaEncoding => serNat4 2

def serLocation (l : BlockLocation) : List Nat :=
  serNat8 l.offset ++ serNat4 l.header_size ++ serNat8 l.data_size

def serHeader (h : BlockHeader) : List Nat :=
  serDataType h.data_type ++ serNat8 h.original_size ++ serNat8 h.compressed_size
    ++ serMethod h.compression_method ++ serNat8 h.checksum ++ serTime h.timestamp

def serEntry (e : List Nat × BlockLocation) : List Nat :=
  serNat8 e.1.length ++ e.1 ++ serLocation e.2

def serMeta (m : MetaData) : List Nat :=
  serTime m.created ++ serTime m.modified ++ serNat8 m.total_blocks
    ++ serNat8 m.index.length ++ (m.index.map serEntry).flatten

/-! ## bincode deserialization -/

def parseBytes (n : Nat) (bs : List Nat) : Option (List Nat × List Nat) :=
  if n ≤ bs.length then some (bs.take n, bs.drop n) else none

def parseNat8 (bs : List Nat) : Option (Nat × List Nat) :=
  (parseBytes 8 bs).map (fun p => (fromLE p.1, p.2))

def parseNat4 (bs : List Nat) : Option (Nat × List Nat) :=
  (parseBytes 4 bs).map (fun p => (fromLE p.1, p.2))

def parseDataType (bs : List Nat) : Option (DataType × List Nat) :=
  match parseNat4 bs with
  | some (0, r) => some (.Text, r)
  | some (1, r) => some (.Binary, r)
  | some (2, r) => some (.Image, r)
  | some (3, r) => some (.Json, r)
  | some (4, r) => some (.Structured, r)
  | _ => none

def parseMethod (bs : List Nat) : Option (CompressionMethod × List Nat) :=
  match parseNat4 bs with
  | some (0, r) => some (.None, r)
  | some (1, r) => some (.Zstd, r)
  | some (2, r) => some (.DeltaEncoding, r)
  | _ => none

def deserHeader (bs : List Nat) : Option BlockHeader := do
  let (dt, r1) ← parseDataType bs
  let (osz, r2) ← parseNat8 r1
  let (csz, r3) ← parseNat8 r2
  let (m, r4) ← parseMethod r3
  let (ck, r5) ← parseNat8 r4
  let (ts, _r6) ← parseNat8 r5
  pure { data_type := dt, original_size := osz, compressed_size := csz,
         compression_method := m, checksum := ck, timestamp := ts }

def parseLocation (bs : List Nat) : Option (BlockLocation × List Nat) := do
  let (off, r1) ← parseNat8 bs
  let (hs, r2) ← parseNat4 r1
  let (ds, r3) ← parseNat8 r2
  pure (⟨off, hs, ds⟩, r3)

def parseEntries : Nat → List Nat → Option (List (List Nat × BlockLocation) × List Nat)
  | 0, bs => some ([], bs)
  | n + 1, bs => do
    let (klen, r1) ← parseNat8 bs
    let (k, r2) ← parseBytes klen r1
    let (loc, r3) ← parseLocation r2
    let (rest, r4) ← parseEntries n r3
    pure ((k, loc) :: rest, r4)

def deserMeta (bs : List Nat) : Option MetaData := do
  let (c, r1) ← parseNat8 bs
  let (m, r2) ← parseNat8 r1
  let (tb, r3) ← parseNat8 r2
  let (cnt, r4) ← parseNat8 r3
  let (idx, _r5) ← parseEntries cnt r4
  pure { created := c, modified := m, total_blocks := tb, index := idx }

/-! ## Codec layer -/

def twoPow64 : Int := 2 ^ 64

/-- Little-endian 8-byte two's-complement image of a signed 64-bit value
(`to_le_bytes`). -/
def i64le (x : Int) : List Nat := leBytes 8 (x % twoPow64).toNat

def toSigned64 (n : Nat) : Int :=
  if n < 2 ^ 63 then (n : Int) else (n : Int) - 2 ^ 64

/-- The `numbers.windows(2)` loop of `delta_encode`: each adjacent difference
`window[1] - window[0]`, two's-complement-wrapped into 8 little-endian bytes
(release-mode Rust wrapping, as the spec prescribes). -/
def deltaDiffs (prev : Int) : List Int → List Nat
  | [] => []
  | y :: t => i64le (y - prev) ++ deltaDiffs y t

def delta_encode (numbers : List Int) : List Nat :=
  match numbers with
  | [] => []
  | x :: rest => i64le x ++ deltaDiffs x rest

/-- Structural helper for `leGroups`; the first argument is recursion fuel.
`leGroups` passes `bs.length`, which always suffices because every step
consumes 8 bytes of a nonempty list, so the `0, _ :: _` case is
unreachable. -/
def leGroupsGo : Nat → List Nat → Option (List Nat)
  | _, [] => some []
  | 0, _ :: _ => none
  | f + 1, bs =>
    if 8 ≤ bs.length then
      (leGroupsGo f (bs.drop 8)).map (fun r => fromLE (bs.take 8) :: r)
    else none

def leGroups (bs : List Nat) : Option (List Nat) := leGroupsGo bs.length bs

def unDeltaGo (prev : Int) : List Int → List Int
  | [] => []
  | d :: t =>
    let x := toSigned64 ((prev + d) % twoPow64).toNat
    x :: unDeltaGo x t

def unDelta : List Int → List Int
  | [] => []
  | v :: ds => v :: unDeltaGo v ds

/-- Modelled from the spec: `delta_decode` is absent from `src/` (only
`delta_encode` exists in `lib.rs`; nothing ever decompresses a
`DeltaEncoding` block).  Per §4.1 of the spec it is the inverse of
`delta_encode`: input length must be a multiple of 8; the first 8-byte
little-endian group is the first integer, each further group is an adjacent
difference, accumulated with two's-complement wrap so that the round-trip is
exact. -/
def delta_decode (bs : List Nat) : Option (List Int) :=
  match leGroups bs with
  | none => none
  | some vs => some (unDelta (vs.map toSigned64))

/-- bincode `Vec<i64>` deserialization attempt used by the `Structured`
branch of `compress_data`. -/
def parseI64s : Nat → List Nat → Option (List Int × List Nat)
  | 0, bs => some ([], bs)
  | n + 1, bs => do
    let (v, r1) ← parseNat8 bs
    let (rest, r2) ← parseI64s n r1
    pure (toSigned64 v :: rest, r2)

def parseVecI64 (bs : List Nat) : Option (List Int) := do
  let (cnt, r1) ← parseNat8 bs
  let (xs, _r2) ← parseI64s cnt r1
  pure xs

def compress_data (ext : Ext) (data : List Nat) (dt : DataType) :
    Except Unit (List Nat × CompressionMethod) :=
  match dt with
  | .Text => .ok (ext.zstd data, .Zstd)
  | .Json => .ok (ext.zstd data, .Zstd)
  | .Image =>
    match ext.imgReencode data with
    | some (.ok out) => .ok (out, .None)
    | some (.error _) => .error ()
    | none => .ok (ext.zstd data, .Zstd)
  | .Structured =>
    match parseVecI64 data with
    | some numbers => .ok (delta_encode numbers, .DeltaEncoding)
    | none => .ok (ext.zstd data, .Zstd)
  | .Binary => .ok (ext.zstd data, .Zstd)

/-! ## File-handle primitives -/

/-- Overwrite `bs` into `file` starting at `pos`, extending the file if the
write runs past its end (zero-padding if `pos` were past the end, which
never happens in the modelled traces). -/
def writeAt (file : List Nat) (pos : Nat) (bs : List Nat) : List Nat :=
  file.take pos ++ List.replicate (pos - file.length) 0 ++ bs
    ++ file.drop (pos + bs.length)

def FS.seekTo (fs : FS) (p : Nat) : FS := { fs with pos := p }

def FS.seekEnd (fs : FS) : FS := { fs with pos := fs.file.length }

def FS.writeAll (fs : FS) (bs : List Nat) : FS :=
  { file := writeAt fs.file fs.pos bs, pos := fs.pos + bs.length }

def FS.readExact (fs : FS) (n : Nat) : Except Err (List Nat × FS) :=
  if fs.pos + n ≤ fs.file.length then
    .ok ((fs.file.drop fs.pos).take n, { fs with pos := fs.pos + n })
  else .error .eof

/-! ## Block engine -/

/-- Structural helper for the chunking `while` loop of `prepare_blocks`;
the first argument is recursion fuel.  `splitChunks` passes `data.length`,
which always suffices because every iteration consumes at least one byte of
a nonempty list, so the `0, _ :: _` case is unreachable. -/
def splitChunksGo : Nat → List Nat → List (List Nat)
  | _, [] => []
  | 0, _ :: _ => []
  | f + 1, data => data.take BLOCK_SIZE :: splitChunksGo f (data.drop BLOCK_SIZE)

/-- The chunking `while` loop of `prepare_blocks`. -/
def splitChunks (data : List Nat) : List (List Nat) := splitChunksGo data.length data

/-- Body of the per-chunk loop of `prepare_blocks`: compression attempt
(only at or above `MIN_COMPRESS_SIZE`, degrading to raw on codec error),
checksum, header. -/
def mkBlock (ext : Ext) (dt : DataType) (t : Nat) (chunk : List Nat) : Block :=
  let cm : List Nat × CompressionMethod :=
    if MIN_COMPRESS_SIZE ≤ chunk.length then
      match compress_data ext chunk dt with
      | .ok p => p
      | .error _ => (chunk, CompressionMethod.None)
    else (chunk, CompressionMethod.None)
  { header := { data_type := dt, original_size := chunk.length,
                compressed_size := cm.1.length, compression_method := cm.2,
                checksum := ext.xxh3 cm.1, timestamp := t },
    data := cm.1, next_location := none }

/-- The `for i in 0..blocks.len() - 1` linking loop: every block but the
last gets a successor pointer whose `offset` and `header_size` are the
placeholder `0` ("will be set during writing" — they never are). -/
def linkBlocks : List Block → List Block
  | [] => []
  | [b] => [b]
  | b :: b2 :: rest =>
    { b with next_location := some ⟨0, 0, b2.data.length⟩ } :: linkBlocks (b2 :: rest)

def prepare_blocks (ext : Ext) (data : List Nat) (dt : DataType) (t : Nat) :
    Except Err (List Block) :=
  if ((splitChunks data).map (mkBlock ext dt t)).isEmpty then
    .error .overflowPanic
  else
    .ok (linkBlocks ((splitChunks data).map (mkBlock ext dt t)))

def write_block (fs : FS) (b : Block) : FS × BlockLocation :=
  let fs1 := fs.seekEnd
  let offset := fs1.pos
  let header_bytes := serHeader b.header
  let header_size := header_bytes.length
  let fs2 := (fs1.writeAll (serNat4 header_size)).writeAll header_bytes
  let fs3 := fs2.writeAll b.data
  (fs3, { offset := offset, header_size := header_size, data_size := b.data.length })

def read_block (fs : FS) (loc : BlockLocation) : Except Err (Block × FS) :=
  match (fs.seekTo loc.offset).readExact 4 with
  | .error e => .error e
  | .ok (hsBytes, fs2) =>
    match fs2.readExact (fromLE hsBytes) with
    | .error e => .error e
    | .ok (header_bytes, fs3) =>
      match deserHeader header_bytes with
      | none => .error .deser
      | some header =>
        match fs3.readExact header.compressed_size with
        | .error e => .error e
        | .ok (data, fs4) =>
          .ok ({ header := header, data := data, next_location := none }, fs4)

/-! ## Index and store facade -/

def insertIdx : List (List Nat × BlockLocation) → List Nat → BlockLocation →
    List (List Nat × BlockLocation)
  | [], k, v => [(k, v)]
  | (k1, v1) :: rest, k, v =>
    if k1 = k then (k, v) :: rest else (k1, v1) :: insertIdx rest k v

def lookupIdx : List (List Nat × BlockLocation) → List Nat → Option BlockLocation
  | [], _ => none
  | (k1, v1) :: rest, k => if k1 = k then some v1 else lookupIdx rest k

def update_metadata (fs : FS) (m : MetaData) : FS :=
  let metadata_bytes := serMeta m
  let fs1 := fs.seekTo 5
  (fs1.writeAll (serNat8 metadata_bytes.length)).writeAll metadata_bytes

def create (t : Nat) : Storage :=
  let metadata : MetaData := { created := t, modified := t, total_blocks := 0, index := [] }
  let metadata_bytes := serMeta metadata
  let fs0 : FS := { file := [], pos := 0 }
  let fs1 := ((fs0.writeAll MAGIC_BYTES).writeAll [VERSION]).writeAll
    (serNat8 metadata_bytes.length)
  let fs2 := fs1.writeAll metadata_bytes
  { fs := fs2, metadata := metadata }

def openStore (file : List Nat) : Except Err Storage :=
  let fs0 : FS := { file := file, pos := 0 }
  match fs0.readExact 4 with
  | .error e => .error e
  | .ok (magic, fs1) =>
    if magic ≠ MAGIC_BYTES then .error .invalidFormat
    else
      match fs1.readExact 1 with
      | .error e => .error e
      | .ok (ver, fs2) =>
        if ver ≠ [VERSION] then .error .unsupportedVersion
        else
          match fs2.readExact 8 with
          | .error e => .error e
          | .ok (szBytes, fs3) =>
            match fs3.readExact (fromLE szBytes) with
            | .error e => .error e
            | .ok (metadata_bytes, fs4) =>
              match deserMeta metadata_bytes with
              | none => .error .deser
              | some md => .ok { fs := fs4, metadata := md }

def writeBlocksLoop : FS → List Block → FS × List BlockLocation
  | fs, [] => (fs, [])
  | fs, b :: rest =>
    let (fs1, loc) := write_block fs b
    let (fs2, locs) := writeBlocksLoop fs1 rest
    (fs2, loc :: locs)

def store (ext : Ext) (s : Storage) (key : List Nat) (data : List Nat)
    (dt : DataType) (t : Nat) : Except Err Storage :=
  match prepare_blocks ext data dt t with
  | .error e => .error e
  | .ok blocks =>
    let (fs1, locations) := writeBlocksLoop s.fs blocks
    match locations with
    | [] => .ok { s with fs := fs1 }
    | first_location :: _ =>
      let md : MetaData :=
        { s.metadata with
          index := insertIdx s.metadata.index key first_location,
          total_blocks := s.metadata.total_blocks + locations.length,
          modified := t }
      let fs2 := update_metadata fs1 md
      .ok { fs := fs2, metadata := md }

def retrieveLoop (ext : Ext) (fs : FS) (cur : Option BlockLocation)
    (acc : List Nat) : Nat → Except Err (List Nat) × FS
  | 0 => (.error .outOfFuel, fs)
  | fuel + 1 =>
    match cur with
    | none => (.ok acc, fs)
    | some loc =>
      match read_block fs loc with
      | .error e => (.error e, fs)
      | .ok (b, fs1) =>
        if ext.xxh3 b.data = b.header.checksum then
          retrieveLoop ext fs1 b.next_location (acc ++ b.data) fuel
        else (.error .corruption, fs1)

def retrieve (ext : Ext) (s : Storage) (key : List Nat) :
    Except Err (List Nat) × Storage :=
  match lookupIdx s.metadata.index key with
  | none => (.error .notFound, s)
  | some location =>
    let r := retrieveLoop ext s.fs (some location) [] (s.fs.file.length + 1)
    (r.1, { s with fs := r.2 })

/-! ## Concrete environment and traces used to evaluate the code

`ext0` instantiates the abstracted external libraries with concrete
stand-ins so that traces can be evaluated: a length hash for `xxh3_64` and a
byte-prepending `zstd` (all that matters below is that they are concrete;
none of the evaluated divergences depends on the choice). -/

def ext0 : Ext :=
  { xxh3 := fun l => l.length,
    zstd := fun l => 40 :: l,
    imgReencode := fun _ => none }

/-- The UTF-8 bytes of `"greeting"`. -/
def gKey : List Nat := [103, 114, 101, 101, 116, 105, 110, 103]

/-- The bytes of `"Hello, World!"`. -/
def helloBytes : List Nat := [72, 101, 108, 108, 111, 44, 32, 87, 111, 114, 108, 100, 33]

/-- The scenario of the repository's own `test_basic_storage`:
create, then `store("greeting", "Hello, World!", Text)`. -/
def demoS1 : Storage :=
  match store ext0 (create 0) gKey helloBytes .Text 1 with
  | .ok s => s
  | .error _ => create 0

def demoRetrieve : Except Err (List Nat) :=
  match store ext0 (create 0) gKey helloBytes .Text 1 with
  | .ok s1 => (retrieve ext0 s1 gKey).1
  | .error e => .error e

/-- The UTF-8 bytes of `"k"`. -/
def kKey : List Nat := [107]

def aBytes : List Nat := List.replicate 8 120

def bBytes : List Nat := List.replicate 1024 97

/-- Overwrite scenario: `store(k, A, Text); store(k, B, Text); retrieve(k)`
with `A` of 8 bytes and `B` of 1024 bytes (at the compression threshold). -/
def demoOverwriteRetrieve : Except Err (List Nat) :=
  match store ext0 (create 0) kKey aBytes .Text 1 with
  | .ok s1 =>
    match store ext0 s1 kKey bBytes .Text 2 with
    | .ok s2 => (retrieve ext0 s2 kKey).1
    | .error e => .error e
  | .error e => .error e

/-- The blocks prepared for a 65537-byte payload (two chunks: 65536 bytes
and 1 byte): what `prepare_blocks ext0 (List.replicate 65537 0) .Binary 0`
returns, as proved by `prepare_blocks_d2`. -/
def d2blocks : List Block :=
  linkBlocks ((splitChunks (List.replicate 65537 0)).map (mkBlock ext0 .Binary 0))

/-- A block whose in-memory `next_location` is deliberately set, to observe
that `read_block` never reproduces it from the file. -/
def wBlk : Block :=
  { header := { data_type := .Binary, original_size := 3, compressed_size := 3,
                compression_method := .None, checksum := 3, timestamp := 0 },
    data := [1, 2, 3], next_location := some ⟨9, 9, 9⟩ }

def wFS : FS := (write_block ⟨[], 0⟩ wBlk).1

def wLoc : BlockLocation := (write_block ⟨[], 0⟩ wBlk).2

def wRead : Block × FS :=
  match read_block wFS wLoc with
  | .ok r => r
  | .error _ => (wBlk, wFS)

def wBlockText : Block := mkBlock ext0 .Text 0 (List.replicate 1024 97)

def wBlockSmall : Block := mkBlock ext0 .Text 0 (List.replicate 1023 97)

/-- A block written with a deliberately wrong checksum (`ext0.xxh3 [1,2,3]`
is `3`, the header says `99`). -/
def cBlk : Block :=
  { header := { data_type := .Binary, original_size := 3, compressed_size := 3,
                compression_method := .None, checksum := 99, timestamp := 0 },
    data := [1, 2, 3], next_location := none }

def cFS : FS := (write_block ⟨[], 0⟩ cBlk).1

def cLoc : BlockLocation := (write_block ⟨[], 0⟩ cBlk).2

def cState : Storage :=
  { fs := cFS,
    metadata := { created := 0, modified := 0, total_blocks := 1, index := [(kKey, cLoc)] } }

def cRead : Block × FS :=
  match read_block cFS cLoc with
  | .ok r => r
  | .error _ => (cBlk, cFS)

def pBlk : Block := mkBlock ext0 .Text 0 [5, 6, 7]

/-- A file starting with `USF0` instead of `USF1`. -/
def badMagicFile : List Nat := [85, 83, 70, 48, 1]

/-- A file with the right magic and version byte 2. -/
def badVersionFile : List Nat := [85, 83, 70, 49, 2]

/-! ## Helper lemmas -/

theorem readExact_ok {fs : FS} {n : Nat} {bs : List Nat} {fs1 : FS}
    (h : FS.readExact fs n = .ok (bs, fs1)) :
    fs1.file = fs.file ∧ fs1.pos = fs.pos + n ∧ bs = (fs.file.drop fs.pos).take n := by
  unfold FS.readExact at h
  split at h
  · injection h with h1
    injection h1 with hb hf
    subst hb; subst hf
    exact ⟨rfl, rfl, rfl⟩
  · exact absurd h (by simp)

theorem read_block_ok {fs : FS} {loc : BlockLocation} {b : Block} {fs1 : FS}
    (h : read_block fs loc = .ok (b, fs1)) :
    fs1.file = fs.file ∧ b.next_location = none := by
  unfold read_block at h
  split at h
  · exact absurd h (by simp)
  · rename_i h1
    split at h
    · exact absurd h (by simp)
    · rename_i h2
      split at h
      · exact absurd h (by simp)
      · split at h
        · exact absurd h (by simp)
        · rename_i h3
          injection h with h4
          injection h4 with hb hf
          subst hb; subst hf
          have e1 := readExact_ok h1
          have e2 := readExact_ok h2
          have e3 := readExact_ok h3
          exact ⟨by rw [e3.1, e2.1, e1.1]; rfl, rfl⟩

theorem retrieveLoop_file (ext : Ext) :
    ∀ (fuel : Nat) (fs : FS) (cur : Option BlockLocation) (acc : List Nat),
      (retrieveLoop ext fs cur acc fuel).2.file = fs.file := by
  intro fuel
  induction fuel with
  | zero => intro fs cur acc; rfl
  | succ n ih =>
    intro fs cur acc
    match cur with
    | none => rfl
    | some loc =>
      simp only [retrieveLoop]
      cases h : read_block fs loc with
      | error e => rfl
      | ok r =>
        obtain ⟨b, fs1⟩ := r
        have hf := (read_block_ok h).1
        by_cases hc : ext.xxh3 b.data = b.header.checksum
        · simp only [hc, if_true]
          rw [ih fs1 b.next_location (acc ++ b.data), hf]
        · simp only [hc, if_false]
          exact hf

theorem mem_linkBlocks {bs : List Block} {b : Block} (hb : b ∈ linkBlocks bs) :
    ∃ b0, b0 ∈ bs ∧ b.header = b0.header ∧ b.data = b0.data := by
  induction bs with
  | nil => simp [linkBlocks] at hb
  | cons x rest ih =>
    cases rest with
    | nil =>
      simp [linkBlocks] at hb
      exact ⟨x, by simp [hb]⟩
    | cons y rest2 =>
      simp only [linkBlocks, List.mem_cons] at hb
      rcases hb with hb | hb
      · exact ⟨x, by simp [hb]⟩
      · obtain ⟨b0, hm, hh, hd⟩ := ih hb
        exact ⟨b0, by simp [List.mem_cons] at hm ⊢; tauto, hh, hd⟩

theorem prepare_blocks_ok {ext : Ext} {data : List Nat} {dt : DataType} {t : Nat}
    {blocks : List Block} (h : prepare_blocks ext data dt t = .ok blocks) :
    ∀ b ∈ blocks, ∃ chunk ∈ splitChunks data,
      b.header = (mkBlock ext dt t chunk).header ∧ b.data = (mkBlock ext dt t chunk).data := by
  intro b hb
  unfold prepare_blocks at h
  split at h
  · exact absurd h (by simp)
  · injection h with h1
    subst h1
    obtain ⟨b0, hm, hh, hd⟩ := mem_linkBlocks hb
    obtain ⟨chunk, hc, rfl⟩ := List.mem_map.mp hm
    exact ⟨chunk, hc, hh, hd⟩

theorem splitChunksGo_of_ne (f : Nat) (d : List Nat) (hd : d ≠ []) :
    splitChunksGo (f + 1) d = d.take BLOCK_SIZE :: splitChunksGo f (d.drop BLOCK_SIZE) := by
  cases d with
  | nil => exact absurd rfl hd
  | cons a l => rfl

theorem splitChunksGo_congr : ∀ (f1 f2 : Nat) (d : List Nat),
    d.length ≤ f1 → d.length ≤ f2 → splitChunksGo f1 d = splitChunksGo f2 d := by
  intro f1
  induction f1 with
  | zero =>
    intro f2 d h1 _h2
    cases d with
    | nil => cases f2 <;> rfl
    | cons a l => simp at h1
  | succ n ih =>
    intro f2 d h1 h2
    cases d with
    | nil => cases f2 <;> rfl
    | cons a l =>
      cases f2 with
      | zero => simp at h2
      | succ m =>
        rw [splitChunksGo_of_ne n (a :: l) (by simp),
            splitChunksGo_of_ne m (a :: l) (by simp)]
        congr 1
        apply ih
        · simp only [List.length_drop, List.length_cons, BLOCK_SIZE] at *
          omega
        · simp only [List.length_drop, List.length_cons, BLOCK_SIZE] at *
          omega

theorem splitChunks_rep65537 :
    splitChunks (List.replicate 65537 (0 : Nat)) = [List.replicate 65536 0, [0]] := by
  unfold splitChunks
  rw [List.length_replicate]
  rw [show (65537 : Nat) = 65536 + 1 from by norm_num]
  rw [splitChunksGo_of_ne 65536 _ (by simp only [ne_eq, List.replicate_eq_nil_iff]; omega)]
  rw [List.take_replicate, List.drop_replicate]
  rw [splitChunksGo_congr 65536 1 _ (by simp [BLOCK_SIZE]) (by simp [BLOCK_SIZE])]
  norm_num [BLOCK_SIZE]
  rfl

theorem map_two_not_isEmpty (ext : Ext) (dt : DataType) (t : Nat) :
    ¬((List.map (mkBlock ext dt t) [List.replicate 65536 (0 : Nat), [0]]).isEmpty = true) := by
  simp only [List.map_cons, List.map_nil, List.isEmpty_cons]
  simp

theorem prepare_blocks_d2 :
    prepare_blocks ext0 (List.replicate 65537 0) .Binary 0 = .ok d2blocks := by
  unfold prepare_blocks d2blocks
  rw [if_neg (by rw [splitChunks_rep65537]; exact map_two_not_isEmpty ext0 .Binary 0)]

theorem writeAt_append (f bs : List Nat) : writeAt f f.length bs = f ++ bs := by
  unfold writeAt
  rw [List.take_length, Nat.sub_self, List.replicate_zero,
      List.drop_eq_nil_of_le (by omega)]
  simp

theorem writeAt_of_eq (f : List Nat) (p : Nat) (bs : List Nat) (h : p = f.length) :
    writeAt f p bs = f ++ bs := by
  subst h
  exact writeAt_append f bs

theorem leBytes_length (w n : Nat) : (leBytes w n).length = w := by
  induction w generalizing n with
  | zero => rfl
  | succ k ih => simp [leBytes, ih]

theorem writeAt3 (f a c d : List Nat) :
    writeAt (writeAt (writeAt f f.length a) (f.length + a.length) c)
      (f.length + a.length + c.length) d = ((f ++ a) ++ c) ++ d := by
  rw [writeAt_append]
  rw [writeAt_of_eq (f ++ a) (f.length + a.length) c (by simp)]
  rw [writeAt_of_eq ((f ++ a) ++ c) (f.length + a.length + c.length) d (by simp; omega)]

theorem write_block_payload (fs : FS) (b : Block) :
    ((write_block fs b).1.file.drop
        ((write_block fs b).2.offset + 4 + (write_block fs b).2.header_size)).take
      (write_block fs b).2.data_size = b.data := by
  unfold write_block FS.seekEnd FS.writeAll
  dsimp only
  rw [writeAt3]
  rw [List.drop_left' (by simp [serNat4, leBytes_length]; omega)]
  rw [List.take_length]

theorem ok_ite_error {c : Prop} [Decidable c] {x : List Nat × FS} {e : Err}
    (h : (if c then Except.ok x else Except.error Err.eof) = Except.error e) :
    e = .eof := by
  split at h
  · exact absurd h (by simp)
  · injection h with h1
    exact h1.symm

/-! ## Claim theorems -/

/-- C1: the claim says `retrieve(key)` after `store(key, bytes, type)`
returns the stored bytes verbatim for every payload.  The code violates
this: in the repository's own `test_basic_storage` scenario
(`store("greeting", "Hello, World!", Text)` on a fresh container), the
metadata rewrite performed at the end of `store` grows past the reserved
region and overwrites the head block's length prefix, so the subsequent
`retrieve` fails with a deserialization error instead of returning the
bytes.  (Independently, `retrieve` never decompresses and `read_block`
never yields a successor, so compressed and multi-block payloads could not
round-trip either.) -/
theorem store_retrieve_roundtrip_codebug :
    demoRetrieve = .error .deser ∧ demoRetrieve ≠ .ok helloBytes := by
  constructor
  · rfl
  · intro h
    rw [show demoRetrieve = Except.error Err.deser from rfl] at h
    exact Except.noConfusion h

/-- C2: the claim says that for a multi-block payload the written chain can
be walked from the head-block location by file reads alone, visiting every
chunk in order.  The code cannot do this: the linking loop only sets
in-memory successor pointers with placeholder `offset = 0` and
`header_size = 0` ("will be set during writing" — they never are), the
serialized header contains no successor field at all, and `read_block`
reconstructs every block with `next_location = None`.  So for a 65537-byte
payload (two chunks) the prepared chain points at offset 0 (the magic
bytes, not the second block), and any walk by file reads stops after the
head block. -/
theorem chain_linkage_codebug :
    (∀ (fs : FS) (loc : BlockLocation) (b : Block) (fs1 : FS),
        read_block fs loc = .ok (b, fs1) → b.next_location = none) ∧
    (∀ (ext : Ext) (t : Nat) (blocks : List Block),
        prepare_blocks ext (List.replicate 65537 0) .Binary t = .ok blocks →
        blocks.map Block.next_location = [some ⟨0, 0, 1⟩, none]) := by
  constructor
  · intro fs loc b fs1 h
    exact (read_block_ok h).2
  · intro ext t blocks h
    unfold prepare_blocks at h
    rw [splitChunks_rep65537] at h
    rw [if_neg (map_two_not_isEmpty ext .Binary t)] at h
    injection h with h1
    subst h1
    simp only [List.map_cons, List.map_nil, linkBlocks]
    simp [mkBlock, MIN_COMPRESS_SIZE]

/-- Witness for C2: a concrete successful `read_block` yields no successor
even though the written block had one in memory, and the concretely
prepared two-chunk chain carries the unpatched placeholder pointer. -/
theorem chain_linkage_codebug_witness :
    wRead.1.next_location = none ∧
    d2blocks.map Block.next_location = [some ⟨0, 0, 1⟩, none] := by
  constructor
  · exact chain_linkage_codebug.1 wFS wLoc wRead.1 wRead.2 rfl
  · exact chain_linkage_codebug.2 ext0 0 d2blocks prepare_blocks_d2

/-- C4: compression is attempted exactly for chunks of at least
`MIN_COMPRESS_SIZE = 1024` bytes: any smaller chunk is stored with method
`None` whatever the data type, and a `Text` chunk of 1024 bytes or more is
stored with method `Zstd`. -/
theorem compression_threshold (ext : Ext) (dt : DataType) (data : List Nat)
    (t : Nat) (blocks : List Block)
    (h : prepare_blocks ext data dt t = .ok blocks) :
    ∀ b ∈ blocks,
      (b.header.original_size < MIN_COMPRESS_SIZE →
        b.header.compression_method = .None) ∧
      (dt = .Text → MIN_COMPRESS_SIZE ≤ b.header.original_size →
        b.header.compression_method = .Zstd) := by
  intro b hb
  obtain ⟨chunk, _hc, hh, _hd⟩ := prepare_blocks_ok h b hb
  rw [hh]
  constructor
  · intro hlt
    have hlen : chunk.length < MIN_COMPRESS_SIZE := hlt
    simp only [mkBlock]
    rw [if_neg (by omega)]
  · intro hdt hge
    have hlen : MIN_COMPRESS_SIZE ≤ chunk.length := hge
    subst hdt
    simp only [mkBlock]
    rw [if_pos hlen]
    simp [compress_data]

/-- Witness for C4: a 1024-byte `Text` payload is stored `Zstd`, a
1023-byte one is stored `None` (the spec's own threshold scenario). -/
theorem compression_threshold_witness :
    wBlockText.header.compression_method = .Zstd ∧
    wBlockSmall.header.compression_method = .None := by
  constructor
  · exact (compression_threshold ext0 .Text (List.replicate 1024 97) 0 [wBlockText] rfl
      wBlockText (by simp)).2 rfl (by decide)
  · exact (compression_threshold ext0 .Text (List.replicate 1023 97) 0 [wBlockSmall] rfl
      wBlockSmall (by simp)).1 (by decide)

/-- C3: the claim says `store` with an empty payload appends zero blocks
but still updates `metadata.modified` and rewrites the metadata region.
The code instead panics: with zero prepared blocks the linking loop bound
`blocks.len() - 1` underflows (debug: overflow panic; release:
`blocks[0]` out-of-bounds panic), so `store` never returns. -/
theorem store_empty_payload_panics (ext : Ext) (s : Storage) (k : List Nat)
    (dt : DataType) (t : Nat) :
    store ext s k [] dt t = .error .overflowPanic := by
  simp [store, prepare_blocks, splitChunks, splitChunksGo]

/-- C8: the claim says every in-place metadata rewrite stays within the
region reserved at creation and never overwrites following block data.
In the `test_basic_storage` scenario the serialized metadata grows from 32
bytes (reserved at creation) to 68 bytes, the metadata region
`[13, 13+68)` runs past the head block recorded at offset 45, and the
head block's 4-byte length prefix (originally `serNat4 40`) now holds
metadata bytes `[8, 0, 0, 0]`. -/
theorem metadata_rewrite_overflows_reserved_region :
    (serMeta (create 0).metadata).length = 32 ∧
    (serMeta demoS1.metadata).length = 68 ∧
    lookupIdx demoS1.metadata.index gKey = some ⟨45, 40, 13⟩ ∧
    45 < 13 + (serMeta demoS1.metadata).length ∧
    (demoS1.fs.file.drop 45).take 4 = [8, 0, 0, 0] ∧
    serNat4 40 ≠ [8, 0, 0, 0] := by
  refine ⟨rfl, rfl, rfl, by decide, rfl, by decide⟩

/-- C9: the claim says `store(k, A, t1); store(k, B, t2); retrieve(k)`
returns `B` for every pair of payloads.  The index entry is indeed
replaced (the head location of `B`'s chain is what `retrieve` reads), but
`retrieve` returns the block payload as stored, without decompressing: for
a 1024-byte `B` of type `Text` (at the compression threshold) it returns
the zstd-compressed bytes, not `B`.  (For an empty `B` the second `store`
would not even return, by the C3 panic.) -/
theorem overwrite_retrieve_codebug :
    demoOverwriteRetrieve = .ok (ext0.zstd bBytes) ∧
    ext0.zstd bBytes = 40 :: bBytes ∧
    demoOverwriteRetrieve ≠ .ok bBytes := by
  refine ⟨rfl, rfl, ?_⟩
  intro h
  rw [show demoOverwriteRetrieve = Except.ok (40 :: bBytes) from rfl] at h
  injection h with h1
  have hlen := congrArg List.length h1
  simp [bBytes] at hlen

/-- C10: `retrieve` never modifies the store: the in-memory metadata and
every byte of the container file are unchanged whatever it returns (only
the file cursor moves, as with the Rust `&mut File`). -/
theorem retrieve_preserves_state (ext : Ext) (s : Storage) (k : List Nat) :
    (retrieve ext s k).2.fs.file = s.fs.file ∧
    (retrieve ext s k).2.metadata = s.metadata := by
  unfold retrieve
  cases h : lookupIdx s.metadata.index k with
  | none => exact ⟨rfl, rfl⟩
  | some loc =>
    exact ⟨retrieveLoop_file ext (s.fs.file.length + 1) s.fs (some loc) [], rfl⟩

/-- C6: `open` verifies the magic bytes first (failing with the
invalid-file-format error whenever the first 4 bytes differ from `USF1`),
then the version byte (failing with the unsupported-version error when the
fifth byte is not `1`), and only past both checks does it read and
deserialize the metadata: any further failure is a truncated read or a
metadata-deserialization error, never the two format errors. -/
theorem open_checks_magic_then_version (file : List Nat) :
    (4 ≤ file.length → file.take 4 ≠ MAGIC_BYTES →
      openStore file = .error .invalidFormat) ∧
    (file.take 4 = MAGIC_BYTES → 5 ≤ file.length → (file.drop 4).take 1 ≠ [VERSION] →
      openStore file = .error .unsupportedVersion) ∧
    (file.take 4 = MAGIC_BYTES → (file.drop 4).take 1 = [VERSION] →
      ∀ e, openStore file = .error e → e = .eof ∨ e = .deser) := by
  refine ⟨?_, ?_, ?_⟩
  · intro h4 hm
    unfold openStore
    simp only [FS.readExact, Nat.zero_add]
    rw [if_pos (by omega : 4 ≤ file.length)]
    dsimp only
    simp only [List.drop_zero]
    rw [if_pos hm]
  · intro hm h5 hv
    unfold openStore
    simp only [FS.readExact, Nat.zero_add]
    rw [if_pos (by omega : 4 ≤ file.length)]
    dsimp only
    simp only [List.drop_zero]
    rw [if_neg (not_not_intro hm)]
    rw [if_pos (by omega : 4 + 1 ≤ file.length)]
    dsimp only
    rw [if_pos hv]
  · intro hm hv e
    have h4 : 4 ≤ file.length := by
      have hl := congrArg List.length hm
      simp only [List.length_take, MAGIC_BYTES, List.length_cons, List.length_nil] at hl
      omega
    have h5 : 5 ≤ file.length := by
      have hl := congrArg List.length hv
      simp only [List.length_take, List.length_drop, VERSION, List.length_cons,
        List.length_nil] at hl
      omega
    unfold openStore
    simp only [FS.readExact, Nat.zero_add]
    rw [if_pos (by omega : 4 ≤ file.length)]
    dsimp only
    simp only [List.drop_zero]
    rw [if_neg (not_not_intro hm)]
    rw [if_pos (by omega : 4 + 1 ≤ file.length)]
    dsimp only
    rw [if_neg (not_not_intro hv)]
    intro he
    split at he
    · rename_i e1 h8
      injection he with he1
      subst he1
      left
      exact ok_ite_error h8
    · rename_i a b h8
      split at he
      · rename_i e2 h9
        injection he with he2
        subst he2
        left
        exact ok_ite_error h9
      · rename_i c d h9
        split at he
        · injection he with he3
          subst he3
          right
          rfl
        · exact absurd he (by simp)

/-- Witness for C6: the spec's S5 scenario (`USF0` prefix) yields the
invalid-format error, and a `USF1` file with version byte 2 yields the
unsupported-version error. -/
theorem open_checks_magic_then_version_witness :
    openStore badMagicFile = .error .invalidFormat ∧
    openStore badVersionFile = .error .unsupportedVersion :=
  ⟨(open_checks_magic_then_version badMagicFile).1 (by decide) (by decide),
   (open_checks_magic_then_version badVersionFile).2.1 (by decide) (by decide) (by decide)⟩

/-- C7: every prepared block's header checksum is the (abstracted) XXH3-64
hash of exactly the payload bytes that `write_block` places right after the
serialized header, and whenever the hash of the payload a `read_block`
returns differs from the header's checksum — as a bit flip in the payload
region produces for a collision-free hash — `retrieve` returns the
data-corruption error rather than data. -/
theorem checksum_stored_and_verified :
    (∀ (ext : Ext) (data : List Nat) (dt : DataType) (t : Nat) (blocks : List Block),
        prepare_blocks ext data dt t = .ok blocks →
        ∀ b ∈ blocks, b.header.checksum = ext.xxh3 b.data) ∧
    (∀ (fs : FS) (b : Block),
        ((write_block fs b).1.file.drop
            ((write_block fs b).2.offset + 4 + (write_block fs b).2.header_size)).take
          (write_block fs b).2.data_size = b.data) ∧
    (∀ (ext : Ext) (s : Storage) (k : List Nat) (loc : BlockLocation) (b : Block) (fs1 : FS),
        lookupIdx s.metadata.index k = some loc →
        read_block s.fs loc = .ok (b, fs1) →
        ext.xxh3 b.data ≠ b.header.checksum →
        (retrieve ext s k).1 = .error .corruption) := by
  refine ⟨?_, write_block_payload, ?_⟩
  · intro ext data dt t blocks h b hb
    obtain ⟨chunk, _hc, hh, hd⟩ := prepare_blocks_ok h b hb
    rw [hh, hd]
    rfl
  · intro ext s k loc b fs1 hl hr hne
    unfold retrieve
    rw [hl]
    dsimp only
    simp only [retrieveLoop]
    rw [hr]
    dsimp only
    rw [if_neg hne]

/-- Witness for C7: a concretely prepared block carries the hash of its
payload, a concrete `write_block` places the payload after the header, and
retrieving a block stored with a wrong checksum yields the corruption
error. -/
theorem checksum_stored_and_verified_witness :
    pBlk.header.checksum = ext0.xxh3 pBlk.data ∧
    ((write_block ⟨[], 0⟩ cBlk).1.file.drop
        ((write_block ⟨[], 0⟩ cBlk).2.offset + 4 + (write_block ⟨[], 0⟩ cBlk).2.header_size)).take
      (write_block ⟨[], 0⟩ cBlk).2.data_size = cBlk.data ∧
    (retrieve ext0 cState kKey).1 = .error .corruption := by
  refine ⟨?_, checksum_stored_and_verified.2.1 ⟨[], 0⟩ cBlk, ?_⟩
  · exact checksum_stored_and_verified.1 ext0 [5, 6, 7] .Text 0 [pBlk] rfl pBlk (by simp)
  · exact checksum_stored_and_verified.2.2 ext0 cState kKey cLoc cRead.1 cRead.2 rfl rfl
      (by decide)

theorem fromLE_leBytes : ∀ (w n : Nat), n < 256 ^ w → fromLE (leBytes w n) = n := by
  intro w
  induction w with
  | zero =>
    intro n h
    simp only [pow_zero] at h
    simp only [leBytes, fromLE]
    omega
  | succ k ih =>
    intro n h
    simp only [leBytes, fromLE]
    rw [ih (n / 256) (by
      have h2 : n < 256 ^ k * 256 := by rw [pow_succ] at h; exact h
      omega)]
    omega

theorem fromLE_i64le (x : Int) : fromLE (i64le x) = (x % twoPow64).toNat := by
  unfold i64le
  apply fromLE_leBytes
  have h0 : 0 ≤ x % twoPow64 := Int.emod_nonneg x (by norm_num [twoPow64])
  have h1 : x % twoPow64 < twoPow64 := Int.emod_lt_of_pos x (by norm_num [twoPow64])
  norm_num [twoPow64] at *
  omega

theorem toSigned64_mod_eq (x : Int) (ha : -(2 ^ 63) ≤ x) (hb : x < 2 ^ 63) :
    toSigned64 ((x % twoPow64).toNat) = x := by
  have h0 : 0 ≤ x % twoPow64 := Int.emod_nonneg x (by norm_num [twoPow64])
  have h1 : x % twoPow64 < twoPow64 := Int.emod_lt_of_pos x (by norm_num [twoPow64])
  unfold toSigned64 twoPow64 at *
  norm_num at *
  split <;> omega

theorem toSigned64_toNat_emod (z : Int) : (((z % twoPow64).toNat : Int)) = z % twoPow64 :=
  Int.toNat_of_nonneg (Int.emod_nonneg z (by norm_num [twoPow64]))

theorem toSigned64_emod (n : Nat) :
    toSigned64 n % twoPow64 = (n : Int) % twoPow64 := by
  unfold toSigned64 twoPow64
  split
  · rfl
  · omega

theorem toSigned64_emod_congr (z y : Int) (ha : -(2 ^ 63) ≤ y) (hb : y < 2 ^ 63)
    (hc : z % twoPow64 = y % twoPow64) :
    toSigned64 ((z % twoPow64).toNat) = y := by
  have h0 : 0 ≤ z % twoPow64 := Int.emod_nonneg z (by norm_num [twoPow64])
  have h1 : z % twoPow64 < twoPow64 := Int.emod_lt_of_pos z (by norm_num [twoPow64])
  unfold toSigned64 twoPow64 at *
  norm_num at *
  split <;> omega

theorem leGroupsGo_of_ne (f : Nat) (d : List Nat) (hd : d ≠ []) :
    leGroupsGo (f + 1) d =
      if 8 ≤ d.length then
        (leGroupsGo f (d.drop 8)).map (fun r => fromLE (d.take 8) :: r)
      else none := by
  cases d with
  | nil => exact absurd rfl hd
  | cons a l => rfl

theorem leGroupsGo_congr : ∀ (f1 f2 : Nat) (d : List Nat),
    d.length ≤ f1 → d.length ≤ f2 → leGroupsGo f1 d = leGroupsGo f2 d := by
  intro f1
  induction f1 with
  | zero =>
    intro f2 d h1 _h2
    cases d with
    | nil => cases f2 <;> rfl
    | cons a l => simp at h1
  | succ n ih =>
    intro f2 d h1 h2
    cases d with
    | nil => cases f2 <;> rfl
    | cons a l =>
      cases f2 with
      | zero => simp at h2
      | succ m =>
        rw [leGroupsGo_of_ne n (a :: l) (by simp),
            leGroupsGo_of_ne m (a :: l) (by simp)]
        by_cases h8 : 8 ≤ (a :: l).length
        · rw [if_pos h8, if_pos h8]
          congr 1
          apply ih
          · simp only [List.length_drop, List.length_cons] at *
            omega
          · simp only [List.length_drop, List.length_cons] at *
            omega
        · rw [if_neg h8, if_neg h8]

theorem i64le_length (x : Int) : (i64le x).length = 8 := by
  unfold i64le
  exact leBytes_length 8 _

theorem leGroups_cons (v : Int) (r : List Nat) :
    leGroups (i64le v ++ r) = (leGroups r).map (fun g => (v % twoPow64).toNat :: g) := by
  unfold leGroups
  have hlen : (i64le v ++ r).length = r.length + 8 := by
    simp [i64le_length]
    omega
  rw [hlen]
  rw [show r.length + 8 = r.length + 7 + 1 from by omega]
  rw [leGroupsGo_of_ne (r.length + 7) _ (by
    intro h0
    rw [h0] at hlen
    simp at hlen)]
  rw [if_pos (by simp [i64le_length])]
  rw [List.take_left' (i64le_length v), List.drop_left' (i64le_length v)]
  rw [fromLE_i64le]
  rw [leGroupsGo_congr (r.length + 7) r.length r (by omega) (le_refl _)]

theorem unDeltaGo_encode : ∀ (t : List Int) (x : Int),
    -(2 ^ 63) ≤ x → x < 2 ^ 63 → (∀ y ∈ t, -(2 ^ 63) ≤ y ∧ y < 2 ^ 63) →
    ∃ vs, leGroups (deltaDiffs x t) = some vs ∧
      unDeltaGo x (vs.map toSigned64) = t := by
  intro t
  induction t with
  | nil =>
    intro x _hxa _hxb _ht
    exact ⟨[], rfl, rfl⟩
  | cons y t ih =>
    intro x hxa hxb ht
    have hy := ht y (by simp)
    obtain ⟨vs, hg, hu⟩ := ih y hy.1 hy.2 (fun z hz => ht z (by simp [hz]))
    refine ⟨((y - x) % twoPow64).toNat :: vs, ?_, ?_⟩
    · rw [show deltaDiffs x (y :: t) = i64le (y - x) ++ deltaDiffs y t from rfl]
      rw [leGroups_cons, hg]
      rfl
    · simp only [List.map_cons, unDeltaGo]
      have hd2 : toSigned64 (((y - x) % twoPow64).toNat) % twoPow64 =
          (y - x) % twoPow64 := by
        have := toSigned64_toNat_emod (y - x)
        rw [toSigned64_emod, this, Int.emod_emod_of_dvd _ dvd_rfl]
      have hx1 : toSigned64 ((x + toSigned64 (((y - x) % twoPow64).toNat)) %
          twoPow64).toNat = y := by
        apply toSigned64_emod_congr _ _ hy.1 hy.2
        rw [Int.add_emod, hd2, ← Int.add_emod]
        norm_num
      rw [hx1, hu]

/-- C5: `delta_encode` emits the first integer as 8 little-endian bytes
followed by each adjacent difference in the same form (empty input gives
empty output), where the subtraction wraps modulo 2^64 (two's complement),
and the spec-modelled `delta_decode` inverts it exactly for every sequence
of 64-bit integers, including `INT64_MIN` and `INT64_MAX`. -/
theorem delta_encode_decode_roundtrip :
    delta_encode [] = ([] : List Nat) ∧
    (∀ (x : Int) (rest : List Int),
        delta_encode (x :: rest) = i64le x ++ deltaDiffs x rest) ∧
    (∀ xs : List Int, (∀ x ∈ xs, -(2 ^ 63) ≤ x ∧ x < 2 ^ 63) →
        delta_decode (delta_encode xs) = some xs) := by
  refine ⟨rfl, fun x rest => rfl, ?_⟩
  intro xs hxs
  cases xs with
  | nil => rfl
  | cons x t =>
    have hx := hxs x (by simp)
    obtain ⟨vs, hg, hu⟩ := unDeltaGo_encode t x hx.1 hx.2 (fun z hz => hxs z (by simp [hz]))
    rw [show delta_encode (x :: t) = i64le x ++ deltaDiffs x t from rfl]
    unfold delta_decode
    rw [leGroups_cons, hg]
    simp only [Option.map_some', List.map_cons, unDelta]
    rw [toSigned64_mod_eq x hx.1 hx.2, hu]

/-- Witness for C5: the round-trip at a concrete sequence containing
`INT64_MIN` and `INT64_MAX`. -/
theorem delta_encode_decode_roundtrip_witness :
    delta_decode (delta_encode
        [(-9223372036854775808 : Int), 9223372036854775807, 0, 42]) =
      some [(-9223372036854775808 : Int), 9223372036854775807, 0, 42] :=
  delta_encode_decode_roundtrip.2.2 _ (by decide)

end USF
